import Mathlib

/-!
# Shallow embedding of `EulerAncestralDiscreteScheduler`

This file embeds the scheduler in
`src/diffusers/schedulers/scheduling_euler_ancestral_discrete.py` and the
guidance combiners in `src/diffusers/pipelines/pag_utils.py` and
`src/diffusers/pipelines/meissonic/pipeline_meissonic_inpaint.py`.

Modelling choices:
* machine floats become exact numbers in a linear ordered field `K`
  (instantiated with `ℝ` in the theorems, with `ℚ` for the purely rational
  timestep computation);
* the float operation `** 0.5` is passed in as an explicit function
  `sqrt : K → K` and instantiated with `Real.sqrt`, keeping every
  definition executable;
* tensors act elementwise; the step function is modelled on one
  representative component (a scalar), the guidance combiners on whole
  buffers (`List ℚ`) with elementwise operations;
* `torch.randn_like(x)` draws noise from the (globally seeded) torch RNG;
  the drawn value is a deterministic function of that seed and of nothing
  else, so the draw reaching the current step is passed to the embedded
  step function as an explicit `noise` argument;
* mutable attributes of the scheduler instance become an explicit
  `SchedulerState` record threaded through the operations.
-/

namespace EulerAncestral

variable {K : Type} [LinearOrderedField K]

/-- `torch.linspace a b n` / `np.linspace a b n` over an exact field:
`n` evenly spaced values from `a` to `b`, endpoints included.  For `n = 1`
the libraries return `[a]`, which the formula below also yields because
division by zero is zero. -/
def linspace (a b : K) (n : ℕ) : List K :=
  (List.range n).map (fun (i : ℕ) => a + (i : K) * (b - a) / ((n : K) - 1))

/-- The `"linear"` branch of `__init__`:
`torch.linspace(beta_start, beta_end, num_train_timesteps)`. -/
def betasLinear (beta_start beta_end : K) (n : ℕ) : List K :=
  linspace beta_start beta_end n

/-- The `"scaled_linear"` branch of `__init__`:
`torch.linspace(beta_start**0.5, beta_end**0.5, num_train_timesteps) ** 2`. -/
def betasScaledLinear (sqrt : K → K) (beta_start beta_end : K) (n : ℕ) : List K :=
  (linspace (sqrt beta_start) (sqrt beta_end) n).map (fun x => x ^ 2)

/-- The beta-schedule dispatch at the top of
`EulerAncestralDiscreteScheduler.__init__`: `trained_betas` wins when
present, otherwise the `beta_schedule` string selects a family, and an
unknown string raises `NotImplementedError` (modelled as `.error`). -/
def makeBetas (sqrt : K → K) (num_train_timesteps : ℕ) (beta_start beta_end : K)
    (beta_schedule : String) (trained_betas : Option (List K)) :
    Except String (List K) :=
  match trained_betas with
  | some tb => .ok tb
  | none =>
    if beta_schedule = "linear" then
      .ok (betasLinear beta_start beta_end num_train_timesteps)
    else if beta_schedule = "scaled_linear" then
      .ok (betasScaledLinear sqrt beta_start beta_end num_train_timesteps)
    else
      .error (beta_schedule ++ " does is not implemented")

/-- `torch.cumprod` on a list: running products. -/
def cumprod : List K → List K
  | [] => []
  | x :: xs => x :: (cumprod xs).map (fun y => x * y)

/-- `alphas_cumprod = torch.cumprod(1.0 - betas, dim=0)`. -/
def alphasCumprod (betas : List K) : List K :=
  cumprod (betas.map (fun b => 1 - b))

/-- The per-training-timestep sigma array
`((1 - alphas_cumprod) / alphas_cumprod) ** 0.5`. -/
def sigmasTrain (sqrt : K → K) (betas : List K) : List K :=
  (alphasCumprod betas).map (fun ac => sqrt ((1 - ac) / ac))

/-- The mutable attributes an `EulerAncestralDiscreteScheduler` instance
carries between calls.  `betas` is fixed at construction (its length is
`num_train_timesteps`); `set_timesteps` and `step` rewrite the other
fields.  `timesteps` is kept in `ℚ` because `np.linspace` over the integer
endpoints is a purely rational computation. -/
structure SchedulerState (K : Type) where
  betas : List K
  sigmas : List K
  timesteps : List ℚ
  num_inference_steps : Option ℕ
  init_noise_sigma : Option K
  derivatives : List K

/-- The state produced by `__init__` after the betas are built: sigmas are
the reversed training sigmas with a trailing `0.0`, timesteps are
`np.arange(0, num_train_timesteps)[::-1]`, `init_noise_sigma` is `None`
and the derivative history is empty. -/
def initScheduler (sqrt : K → K) (betas : List K) : SchedulerState K :=
  { betas := betas
    sigmas := (sigmasTrain sqrt betas).reverse ++ [0]
    timesteps := (List.range betas.length).reverse.map (fun i => (i : ℚ))
    num_inference_steps := none
    init_noise_sigma := none
    derivatives := [] }

/-- `EulerAncestralDiscreteScheduler.set_timesteps`: timesteps are
`np.linspace(num_train_timesteps - 1, 0, num_inference_steps)`; sigmas are
linearly interpolated from the training sigmas at those (fractional)
timesteps via `floor`/`ceil` indices and the fractional part
`np.mod(t, 1.0)`, with a trailing `0.0`; `init_noise_sigma` becomes
`sigmas[0]` and the derivative history is reset. -/
def setTimesteps (sqrt : K → K) (st : SchedulerState K) (num_inference_steps : ℕ) :
    SchedulerState K :=
  let ts : List ℚ := linspace ((st.betas.length : ℚ) - 1) 0 num_inference_steps
  let strain := sigmasTrain sqrt st.betas
  let sig : List K :=
    (ts.map (fun t =>
      let low := (Int.floor t).toNat
      let high := (Int.ceil t).toNat
      let frac : ℚ := Int.fract t
      (1 - (frac : K)) * strain.getD low 0 + (frac : K) * strain.getD high 0))
    ++ [0]
  { st with
    num_inference_steps := some num_inference_steps
    timesteps := ts
    sigmas := sig
    init_noise_sigma := sig.head?
    derivatives := [] }

/-- `sigma_up = (sigma_to ** 2 * (sigma_from ** 2 - sigma_to ** 2) / sigma_from ** 2) ** 0.5`
from `step`, with `sigma_from = sigmas[step_index]` and
`sigma_to = sigmas[step_index + 1]`. -/
def sigmaUp (sqrt : K → K) (sigmas : List K) (step_index : ℕ) : K :=
  let sigma_from := sigmas.getD step_index 0
  let sigma_to := sigmas.getD (step_index + 1) 0
  sqrt (sigma_to ^ 2 * (sigma_from ^ 2 - sigma_to ^ 2) / sigma_from ^ 2)

/-- `sigma_down = (sigma_to ** 2 - sigma_up ** 2) ** 0.5` from `step`. -/
def sigmaDown (sqrt : K → K) (sigmas : List K) (step_index : ℕ) : K :=
  let sigma_to := sigmas.getD (step_index + 1) 0
  sqrt (sigma_to ^ 2 - sigmaUp sqrt sigmas step_index ^ 2)

/-- `EulerAncestralDiscreteScheduler.step` on one tensor component.
`timestep` is accepted but, as in the source, never read (only
`step_index` selects the sigmas).  `noise` is the component of
`torch.randn_like(prev_sample)` drawn from the seeded RNG.  Returns the
updated instance state (derivative appended) and `prev_sample`. -/
def step (sqrt : K → K) (st : SchedulerState K) (model_output : K) (timestep : ℚ)
    (step_index : ℕ) (sample : K) (noise : K) : SchedulerState K × K :=
  let sigma := st.sigmas.getD step_index 0
  let pred_original_sample := sample - sigma * model_output
  let sigma_up := sigmaUp sqrt st.sigmas step_index
  let sigma_down := sigmaDown sqrt st.sigmas step_index
  let derivative := (sample - pred_original_sample) / sigma
  let st' := { st with derivatives := st.derivatives ++ [derivative] }
  let dt := sigma_down - sigma
  let prev_sample := sample + derivative * dt
  let prev_sample := prev_sample + noise * sigma_up
  (st', prev_sample)

/-- Run `step` once per entry of `inputs`; each entry is
`(model_output, timestep, step_index, sample, noise)`.  Threads the
instance state exactly as the pipeline's denoising loop does. -/
def runSteps (sqrt : K → K) (st : SchedulerState K)
    (inputs : List (K × ℚ × ℕ × K × K)) : SchedulerState K :=
  inputs.foldl
    (fun s inp => (step sqrt s inp.1 inp.2.1 inp.2.2.1 inp.2.2.2.1 inp.2.2.2.2).1) st

/-- Models the Python call `scheduler.set_timesteps(...)` together with the
interpreter's handling of the declared signature
`set_timesteps(self, num_inference_steps, device=None)`: a keyword
argument that is not in the signature (`timesteps=...` or `sigmas=...`) is
rejected with a `TypeError` before the body runs, and a missing
`num_inference_steps` is likewise a `TypeError`. -/
def setTimestepsCall (sqrt : K → K) (st : SchedulerState K)
    (num_inference_steps : Option ℕ) (timesteps : Option (List ℚ))
    (sigmas : Option (List K)) : Except String (SchedulerState K) :=
  match timesteps with
  | some _ => .error "TypeError: set_timesteps() got an unexpected keyword argument timesteps"
  | none =>
    match sigmas with
    | some _ => .error "TypeError: set_timesteps() got an unexpected keyword argument sigmas"
    | none =>
      match num_inference_steps with
      | none => .error "TypeError: set_timesteps() missing 1 required positional argument: num_inference_steps"
      | some m => .ok (setTimesteps sqrt st m)

/-- Elementwise tensor addition (same-shape tensors). -/
def tAdd (a b : List ℚ) : List ℚ := List.zipWith (· + ·) a b

/-- Elementwise tensor subtraction (same-shape tensors). -/
def tSub (a b : List ℚ) : List ℚ := List.zipWith (· - ·) a b

/-- Scalar · tensor. -/
def tSMul (c : ℚ) (a : List ℚ) : List ℚ := a.map (fun x => c * x)

/-- The classifier-free-guidance combiner from
`MeissonicInpaintPipeline.__call__`:
`uncond_logits + guidance_scale * (cond_logits - uncond_logits)`. -/
def cfgCombine (uncond cond : List ℚ) (scale : ℚ) : List ℚ :=
  tAdd uncond (tSMul scale (tSub cond uncond))

/-- The CFG branch of `PAGMixin._apply_perturbed_attention_guidance`:
`noise_pred_uncond + guidance_scale * (noise_pred_text - noise_pred_uncond)
 + pag_scale * (noise_pred_text - noise_pred_perturb)`. -/
def pagCombine (uncond text perturb : List ℚ) (guidance_scale pag_scale : ℚ) : List ℚ :=
  tAdd (tAdd uncond (tSMul guidance_scale (tSub text uncond)))
    (tSMul pag_scale (tSub text perturb))

/-- Elementwise view of a three-tensor computation (used only to state the
combined-formula claim against `pagCombine`). -/
def zipWith3 (f : ℚ → ℚ → ℚ → ℚ) : List ℚ → List ℚ → List ℚ → List ℚ
  | a :: as, b :: bs, c :: cs => f a b c :: zipWith3 f as bs cs
  | _, _, _ => []

theorem cumprod_length (l : List K) : (cumprod l).length = l.length := by
  induction l with
  | nil => rfl
  | cons x xs ih => simp [cumprod, ih]

theorem sigmasTrain_length (sqrt : K → K) (betas : List K) :
    (sigmasTrain sqrt betas).length = betas.length := by
  simp [sigmasTrain, alphasCumprod, cumprod_length]

theorem linspace_length (a b : K) (n : ℕ) : (linspace a b n).length = n := by
  rw [linspace, List.length_map, List.length_range]

theorem pairwise_map_range {α : Type} {S : α → α → Prop} (f : ℕ → α) (n : ℕ)
    (hf : ∀ i j, i < j → S (f i) (f j)) : ((List.range n).map f).Pairwise S :=
  (List.pairwise_lt_range n).map f (fun i j hij => hf i j hij)

theorem linspace_pairwise_le (a b : K) (n : ℕ) (hab : a ≤ b) (hn : 1 ≤ n) :
    (linspace a b n).Pairwise (· ≤ ·) := by
  have hn' : (1 : K) ≤ (n : K) := by exact_mod_cast hn
  have hc : (0 : K) ≤ (b - a) / ((n : K) - 1) :=
    div_nonneg (sub_nonneg.2 hab) (by linarith)
  refine pairwise_map_range _ n fun i j hij => ?_
  have hij' : (i : K) ≤ (j : K) := by exact_mod_cast hij.le
  simp only [mul_div_assoc]
  exact add_le_add_left (mul_le_mul_of_nonneg_right hij' hc) a

theorem betasScaledLinear_pairwise (a b : ℝ) (n : ℕ)
    (h1 : a ≤ b) (hn : 1 ≤ n) :
    (betasScaledLinear Real.sqrt a b n).Pairwise (· ≤ ·) := by
  have hn' : (1 : ℝ) ≤ (n : ℝ) := by exact_mod_cast hn
  have hsab : Real.sqrt a ≤ Real.sqrt b := Real.sqrt_le_sqrt h1
  have hc : (0 : ℝ) ≤ (Real.sqrt b - Real.sqrt a) / ((n : ℝ) - 1) :=
    div_nonneg (by linarith) (by linarith)
  rw [betasScaledLinear, linspace, List.map_map]
  refine pairwise_map_range _ n fun i j hij => ?_
  simp only [Function.comp_apply, mul_div_assoc]
  have hij' : (i : ℝ) ≤ (j : ℝ) := by exact_mod_cast hij.le
  have hgi : 0 ≤ Real.sqrt a + (i : ℝ) * ((Real.sqrt b - Real.sqrt a) / ((n : ℝ) - 1)) :=
    add_nonneg (Real.sqrt_nonneg a) (mul_nonneg (Nat.cast_nonneg i) hc)
  exact pow_le_pow_left₀ hgi
    (add_le_add_left (mul_le_mul_of_nonneg_right hij' hc) _) 2

theorem linspace_pairwise_gt (a b : K) (n : ℕ) (hab : b < a) (hn : 2 ≤ n) :
    (linspace a b n).Pairwise (· > ·) := by
  have hn' : (2 : K) ≤ (n : K) := by exact_mod_cast hn
  have hc : (b - a) / ((n : K) - 1) < 0 :=
    div_neg_of_neg_of_pos (by linarith) (by linarith)
  refine pairwise_map_range _ n fun i j hij => ?_
  have hij' : (i : K) < (j : K) := by exact_mod_cast hij
  simp only [mul_div_assoc]
  exact add_lt_add_left (mul_lt_mul_of_neg_right hij' hc) a

theorem linspace_head (a b : K) (n : ℕ) (hn : 1 ≤ n) :
    (linspace a b n).head? = some a := by
  cases n with
  | zero => omega
  | succ m =>
    rw [linspace, List.range_succ_eq_map, List.map_cons, List.head?_cons]
    norm_num

theorem linspace_getLast (a b : K) (n : ℕ) (hn : 2 ≤ n) :
    (linspace a b n).getLast? = some b := by
  have h1 : 1 ≤ n := by omega
  rw [List.getLast?_eq_getElem?, linspace_length, linspace, List.getElem?_map,
    List.getElem?_range (by omega : n - 1 < n), Option.map_some']
  have hc : ((n - 1 : ℕ) : K) = (n : K) - 1 := by
    push_cast [Nat.cast_sub h1]
    ring
  have hne : (n : K) - 1 ≠ 0 := by
    have : (2 : K) ≤ (n : K) := by exact_mod_cast hn
    intro h
    linarith [sub_eq_zero.1 h]
  rw [hc]
  congr 1
  field_simp

theorem linspace_mem_le (a b : K) (n : ℕ) (hab : a ≤ b) :
    ∀ x ∈ linspace a b n, a ≤ x ∧ x ≤ b := by
  intro x hx
  rw [linspace, List.mem_map] at hx
  obtain ⟨i, hi, rfl⟩ := hx
  rw [List.mem_range] at hi
  have hn1 : 1 ≤ n := by omega
  have hn1' : (0 : K) ≤ (n : K) - 1 := by
    have : (1 : K) ≤ (n : K) := by exact_mod_cast hn1
    linarith
  have hc : (0 : K) ≤ (i : K) * (b - a) / ((n : K) - 1) :=
    div_nonneg (mul_nonneg (Nat.cast_nonneg i) (sub_nonneg.2 hab)) hn1'
  refine ⟨by linarith, ?_⟩
  by_cases h1 : n = 1
  · subst h1
    have hi0 : i = 0 := by omega
    subst hi0
    simpa using hab
  · have h2 : 2 ≤ n := by omega
    have hpos : (0 : K) < (n : K) - 1 := by
      have : (2 : K) ≤ (n : K) := by exact_mod_cast h2
      linarith
    have hi' : (i : K) ≤ (n : K) - 1 := by
      have h3 : (i : K) ≤ ((n - 1 : ℕ) : K) := by exact_mod_cast (by omega : i ≤ n - 1)
      have h4 : ((n - 1 : ℕ) : K) = (n : K) - 1 := by
        push_cast [Nat.cast_sub hn1]
        ring
      linarith
    have hstep : (i : K) * (b - a) / ((n : K) - 1)
        ≤ ((n : K) - 1) * (b - a) / ((n : K) - 1) := by
      apply div_le_div_of_nonneg_right ?_ hpos.le
      exact mul_le_mul_of_nonneg_right hi' (sub_nonneg.2 hab)
    have hcancel : ((n : K) - 1) * (b - a) / ((n : K) - 1) = b - a :=
      mul_div_cancel_left₀ _ (ne_of_gt hpos)
    linarith [hstep, hcancel.le, hcancel.ge]

theorem cumprod_bounds (l : List K) (hl : ∀ x ∈ l, 0 < x ∧ x ≤ 1) :
    (∀ y ∈ cumprod l, 0 < y ∧ y ≤ 1) ∧ (cumprod l).Pairwise (· ≥ ·) := by
  induction l with
  | nil => exact ⟨by simp [cumprod], by simp [cumprod]⟩
  | cons x xs ih =>
    obtain ⟨hx0, hx1⟩ := hl x (List.mem_cons_self x xs)
    obtain ⟨ihb, ihp⟩ := ih (fun y hy => hl y (List.mem_cons_of_mem x hy))
    constructor
    · intro y hy
      rw [cumprod] at hy
      rcases List.mem_cons.1 hy with rfl | hy'
      · exact ⟨hx0, hx1⟩
      · rw [List.mem_map] at hy'
        obtain ⟨z, hz, rfl⟩ := hy'
        obtain ⟨hz0, hz1⟩ := ihb z hz
        exact ⟨mul_pos hx0 hz0, mul_le_one₀ hx1 (le_of_lt hz0) hz1⟩
    · rw [cumprod, List.pairwise_cons]
      constructor
      · intro y hy
        rw [List.mem_map] at hy
        obtain ⟨z, hz, rfl⟩ := hy
        exact mul_le_of_le_one_right (le_of_lt hx0) (ihb z hz).2
      · exact ihp.map _ (fun a b hab => mul_le_mul_of_nonneg_left hab (le_of_lt hx0))

theorem sigmasTrain_pairwise_le (betas : List ℝ) (hb : ∀ x ∈ betas, 0 < x ∧ x < 1) :
    (sigmasTrain Real.sqrt betas).Pairwise (· ≤ ·) := by
  have halpha : ∀ x ∈ betas.map (fun b => 1 - b), 0 < x ∧ x ≤ 1 := by
    intro x hx
    rw [List.mem_map] at hx
    obtain ⟨b, hbm, rfl⟩ := hx
    obtain ⟨hb1, hb2⟩ := hb b hbm
    exact ⟨by linarith, by linarith⟩
  obtain ⟨hbnd, hpw⟩ := cumprod_bounds (betas.map (fun b => 1 - b)) halpha
  have hbnd0 : ∀ y ∈ alphasCumprod betas, 0 < y ∧ y ≤ 1 := by
    intro y hy
    rw [alphasCumprod] at hy
    exact hbnd y hy
  have hpw0 : (alphasCumprod betas).Pairwise (· ≥ ·) := by
    rw [alphasCumprod]
    exact hpw
  have hpw' : (alphasCumprod betas).Pairwise (fun a b => (0 < a ∧ 0 < b) ∧ b ≤ a) :=
    hpw0.imp_of_mem (fun ha hb' hab => ⟨⟨(hbnd0 _ ha).1, (hbnd0 _ hb').1⟩, hab⟩)
  rw [sigmasTrain]
  refine hpw'.map _ ?_
  rintro a b ⟨⟨ha, hb'⟩, hba⟩
  apply Real.sqrt_le_sqrt
  rw [div_le_div_iff₀ ha hb']
  nlinarith

theorem betasLinear_mem (bs be : ℝ) (n : ℕ) (h0 : 0 < bs) (h1 : bs ≤ be) (h2 : be < 1) :
    ∀ x ∈ betasLinear bs be n, 0 < x ∧ x < 1 := by
  intro x hx
  obtain ⟨hl, hr⟩ := linspace_mem_le bs be n h1 x hx
  exact ⟨lt_of_lt_of_le h0 hl, lt_of_le_of_lt hr h2⟩

theorem betasScaledLinear_mem (bs be : ℝ) (n : ℕ)
    (h0 : 0 < bs) (h1 : bs ≤ be) (h2 : be < 1) :
    ∀ x ∈ betasScaledLinear Real.sqrt bs be n, 0 < x ∧ x < 1 := by
  intro x hx
  rw [betasScaledLinear, List.mem_map] at hx
  obtain ⟨v, hv, rfl⟩ := hx
  obtain ⟨hvl, hvr⟩ := linspace_mem_le _ _ n (Real.sqrt_le_sqrt h1) v hv
  have hsb : 0 < Real.sqrt bs := Real.sqrt_pos.2 h0
  have hv0 : 0 < v := lt_of_lt_of_le hsb hvl
  refine ⟨pow_pos hv0 2, ?_⟩
  have hsq : v ^ 2 ≤ Real.sqrt be ^ 2 := pow_le_pow_left₀ (le_of_lt hv0) hvr 2
  have hbe : Real.sqrt be ^ 2 = be := Real.sq_sqrt (by linarith)
  linarith

theorem sigmas_reverse_sentinel (betas : List ℝ)
    (hpw : (sigmasTrain Real.sqrt betas).Pairwise (· ≤ ·)) :
    ((sigmasTrain Real.sqrt betas).reverse ++ [(0 : ℝ)]).Pairwise (· ≥ ·) := by
  rw [List.pairwise_append]
  refine ⟨?_, by simp, ?_⟩
  · rw [List.pairwise_reverse]
    exact hpw.imp (fun h => h)
  · intro a ha b hb
    rw [List.mem_reverse, sigmasTrain, List.mem_map] at ha
    obtain ⟨ac, _, rfl⟩ := ha
    rw [List.mem_singleton] at hb
    subst hb
    exact Real.sqrt_nonneg _

/-- C3 counterexample: under the claim's own hypotheses
(`0 < beta_start ≤ beta_end`, `N ≥ 1`) the derived sigmas sequence need
not be monotonic.  With `beta_start = 1/2`, `beta_end = 3/2`, `N = 2` and
the `"linear"` family the builder yields betas `[1/2, 3/2]` (still
non-decreasing), but `alphas_cumprod = [1/2, -1/4]` turns negative, the
derived `((1 - ac)/ac) ** 0.5` array is `[1, 0]` (`√(-5)` is NaN in
float, `0` in this embedding), and neither it nor the stored
reversed-plus-sentinel sequence `[0, 1, 0]` is monotonic in either
direction. -/
theorem schedule_builder_sigmas_not_monotone :
    ((0 : ℝ) < 1/2 ∧ (1/2 : ℝ) ≤ 3/2 ∧ (1 : ℕ) ≤ 2) ∧
    makeBetas Real.sqrt 2 (1/2) (3/2) "linear" none = .ok [1/2, 3/2] ∧
    sigmasTrain Real.sqrt [(1/2 : ℝ), 3/2] = [1, 0] ∧
    ¬ (sigmasTrain Real.sqrt [(1/2 : ℝ), 3/2]).Pairwise (· ≤ ·) ∧
    ¬ ((sigmasTrain Real.sqrt [(1/2 : ℝ), 3/2]).reverse ++ [(0 : ℝ)]).Pairwise (· ≥ ·) ∧
    ¬ ((sigmasTrain Real.sqrt [(1/2 : ℝ), 3/2]).reverse ++ [(0 : ℝ)]).Pairwise (· ≤ ·) := by
  have hbetas : makeBetas Real.sqrt 2 (1/2 : ℝ) (3/2) "linear" none = .ok [1/2, 3/2] := by
    simp only [makeBetas, betasLinear, linspace, if_true, reduceIte]
    norm_num [List.range_succ]
  have hsig : sigmasTrain Real.sqrt [(1/2 : ℝ), 3/2] = [1, 0] := by
    simp only [sigmasTrain, alphasCumprod, cumprod, List.map_cons, List.map_nil]
    norm_num [Real.sqrt_eq_zero']
  refine ⟨⟨by norm_num, by norm_num, by norm_num⟩, hbetas, hsig, ?_, ?_, ?_⟩ <;>
    rw [hsig] <;> norm_num [List.pairwise_cons, List.pairwise_append]

/-- C3 (amended): for both supported schedule families (`"linear"` and
`"scaled_linear"`), with `0 < beta_start ≤ beta_end` and at least one
training timestep, construction succeeds and the betas list has exactly
`num_train_timesteps` entries and is monotonically non-decreasing;
provided additionally `beta_end < 1` (so every beta lies in `(0, 1)` and
the alphas stay positive), the derived sigmas noise-level sequence is
monotonic: the training sigma array is non-decreasing and the stored
reversed sequence with its zero sentinel is non-increasing. -/
theorem schedule_builder_monotone (n : ℕ) (beta_start beta_end : ℝ) (sched : String)
    (h0 : 0 < beta_start) (h1 : beta_start ≤ beta_end) (hn : 1 ≤ n)
    (hs : sched = "linear" ∨ sched = "scaled_linear") :
    ∃ betas : List ℝ,
      makeBetas Real.sqrt n beta_start beta_end sched none = .ok betas ∧
      betas.length = n ∧ betas.Pairwise (· ≤ ·) ∧
      (beta_end < 1 →
        (sigmasTrain Real.sqrt betas).Pairwise (· ≤ ·) ∧
        ((sigmasTrain Real.sqrt betas).reverse ++ [(0 : ℝ)]).Pairwise (· ≥ ·)) := by
  rcases hs with h | h <;> subst h
  · refine ⟨betasLinear beta_start beta_end n, by simp [makeBetas],
      linspace_length _ _ _, linspace_pairwise_le _ _ _ h1 hn, fun h2 => ?_⟩
    have hpw := sigmasTrain_pairwise_le _ (betasLinear_mem _ _ n h0 h1 h2)
    exact ⟨hpw, sigmas_reverse_sentinel _ hpw⟩
  · refine ⟨betasScaledLinear Real.sqrt beta_start beta_end n, by simp [makeBetas], ?_,
      betasScaledLinear_pairwise _ _ _ h1 hn, fun h2 => ?_⟩
    · rw [betasScaledLinear, List.length_map, linspace_length]
    · have hpw := sigmasTrain_pairwise_le _ (betasScaledLinear_mem _ _ n h0 h1 h2)
      exact ⟨hpw, sigmas_reverse_sentinel _ hpw⟩

theorem schedule_builder_monotone_witness :
    ((0 : ℝ) < 1/4 ∧ (1/4 : ℝ) ≤ 1/2 ∧ (1/2 : ℝ) < 1 ∧ 1 ≤ 3 ∧
      (("scaled_linear" : String) = "linear" ∨ ("scaled_linear" : String) = "scaled_linear")) ∧
    (∃ betas : List ℝ,
      makeBetas Real.sqrt 3 (1/4) (1/2) "scaled_linear" none = .ok betas ∧
      betas.length = 3 ∧ betas.Pairwise (· ≤ ·) ∧
      ((1/2 : ℝ) < 1 →
        (sigmasTrain Real.sqrt betas).Pairwise (· ≤ ·) ∧
        ((sigmasTrain Real.sqrt betas).reverse ++ [(0 : ℝ)]).Pairwise (· ≥ ·))) :=
  ⟨⟨by norm_num, by norm_num, by norm_num, by norm_num, Or.inr rfl⟩,
    schedule_builder_monotone 3 (1/4) (1/2) "scaled_linear"
      (by norm_num) (by norm_num) (by norm_num) (Or.inr rfl)⟩

/-- C6: with `trained_betas = None`, any `beta_schedule` other than
`"linear"` or `"scaled_linear"` makes construction fail fast with the
`NotImplementedError` message and no betas are produced, while every
supported configuration (explicit `trained_betas`, or one of the two
supported family names) constructs successfully. -/
theorem construction_fail_fast :
    (∀ (n : ℕ) (bs be : ℝ) (sched : String), sched ≠ "linear" → sched ≠ "scaled_linear" →
      makeBetas Real.sqrt n bs be sched none = .error (sched ++ " does is not implemented")) ∧
    (∀ (n : ℕ) (bs be : ℝ) (sched : String) (tb : Option (List ℝ)),
      tb ≠ none ∨ sched = "linear" ∨ sched = "scaled_linear" →
      ∃ betas, makeBetas Real.sqrt n bs be sched tb = .ok betas) := by
  constructor
  · intro n bs be sched hlin hsc
    simp [makeBetas, hlin, hsc]
  · rintro n bs be sched tb h
    cases tb with
    | some tb' => exact ⟨tb', rfl⟩
    | none =>
      rcases h with htb | h | h
      · exact absurd rfl htb
      · subst h; exact ⟨betasLinear bs be n, by simp [makeBetas]⟩
      · subst h; exact ⟨betasScaledLinear Real.sqrt bs be n, by simp [makeBetas]⟩

theorem construction_fail_fast_witness :
    (("cosine" : String) ≠ "linear" ∧ ("cosine" : String) ≠ "scaled_linear" ∧
      makeBetas Real.sqrt 4 (1/10 : ℝ) (1/5) "cosine" none =
        .error ("cosine" ++ " does is not implemented")) ∧
    (∃ betas, makeBetas Real.sqrt 4 (1/10 : ℝ) (1/5) "linear" none = .ok betas) :=
  ⟨⟨by decide, by decide,
      construction_fail_fast.1 4 (1/10) (1/5) "cosine" (by decide) (by decide)⟩,
    construction_fail_fast.2 4 (1/10) (1/5) "linear" none (Or.inr (Or.inl rfl))⟩

/-- C4: for `2 ≤ M ≤ num_train_timesteps`, `set_timesteps M` produces a
timestep sequence of length exactly `M` that is strictly decreasing, starts
at `num_train_timesteps - 1` and ends at `0`, so the run reaches the
terminal (zero) timestep exactly at the last step; instantiated below at
1000 training and 50 inference steps (999 down to 0). -/
theorem set_timesteps_strictly_decreasing (st : SchedulerState ℝ) (M : ℕ)
    (h2 : 2 ≤ M) (hMN : M ≤ st.betas.length) :
    (setTimesteps Real.sqrt st M).timesteps.length = M ∧
    (setTimesteps Real.sqrt st M).timesteps.Pairwise (· > ·) ∧
    (setTimesteps Real.sqrt st M).timesteps.head? = some ((st.betas.length : ℚ) - 1) ∧
    (setTimesteps Real.sqrt st M).timesteps.getLast? = some 0 := by
  have hN : 2 ≤ st.betas.length := le_trans h2 hMN
  have hts : (setTimesteps Real.sqrt st M).timesteps
      = linspace ((st.betas.length : ℚ) - 1) 0 M := rfl
  rw [hts]
  have hpos : (0 : ℚ) < (st.betas.length : ℚ) - 1 := by
    have : (2 : ℚ) ≤ (st.betas.length : ℚ) := by exact_mod_cast hN
    linarith
  exact ⟨linspace_length _ _ _, linspace_pairwise_gt _ _ _ hpos h2,
    linspace_head _ _ _ (by omega), linspace_getLast _ _ _ h2⟩

theorem set_timesteps_strictly_decreasing_witness :
    (2 ≤ 50 ∧ 50 ≤ (List.replicate 1000 (0 : ℝ)).length) ∧
    ((setTimesteps Real.sqrt
        ⟨List.replicate 1000 (0 : ℝ), [], [], none, none, []⟩ 50).timesteps.length = 50 ∧
      (setTimesteps Real.sqrt
        ⟨List.replicate 1000 (0 : ℝ), [], [], none, none, []⟩ 50).timesteps.Pairwise (· > ·) ∧
      (setTimesteps Real.sqrt
        ⟨List.replicate 1000 (0 : ℝ), [], [], none, none, []⟩ 50).timesteps.head?
        = some (((List.replicate 1000 (0 : ℝ)).length : ℚ) - 1) ∧
      (setTimesteps Real.sqrt
        ⟨List.replicate 1000 (0 : ℝ), [], [], none, none, []⟩ 50).timesteps.getLast?
        = some 0) :=
  ⟨⟨by norm_num, by rw [List.length_replicate]; norm_num⟩,
    set_timesteps_strictly_decreasing
      ⟨List.replicate 1000 (0 : ℝ), [], [], none, none, []⟩ 50 (by norm_num)
      (by rw [List.length_replicate]; norm_num)⟩

/-- C7: for `1 ≤ M ≤ num_train_timesteps`, `set_timesteps M` produces
exactly `M` timesteps and exactly `M + 1` sigmas whose last element is the
zero sentinel, and sets `init_noise_sigma` to the first sigma. -/
theorem set_timesteps_counts (st : SchedulerState ℝ) (M : ℕ)
    (h1 : 1 ≤ M) (hMN : M ≤ st.betas.length) :
    (setTimesteps Real.sqrt st M).timesteps.length = M ∧
    (setTimesteps Real.sqrt st M).sigmas.length = M + 1 ∧
    (setTimesteps Real.sqrt st M).sigmas.getLast? = some 0 ∧
    ∃ s0 rest, (setTimesteps Real.sqrt st M).sigmas = s0 :: rest ∧
      (setTimesteps Real.sqrt st M).init_noise_sigma = some s0 := by
  refine ⟨linspace_length _ _ _, ?_, ?_, ?_⟩
  · show ((linspace ((st.betas.length : ℚ) - 1) 0 M).map _ ++ [(0 : ℝ)]).length = M + 1
    rw [List.length_append, List.length_map, linspace_length, List.length_singleton]
  · exact List.getLast?_concat _
  · have hlen : (setTimesteps Real.sqrt st M).sigmas.length = M + 1 := by
      show ((linspace ((st.betas.length : ℚ) - 1) 0 M).map _ ++ [(0 : ℝ)]).length = M + 1
      rw [List.length_append, List.length_map, linspace_length, List.length_singleton]
    cases hsig : (setTimesteps Real.sqrt st M).sigmas with
    | nil => rw [hsig] at hlen; simp at hlen
    | cons s0 rest =>
      refine ⟨s0, rest, rfl, ?_⟩
      show (setTimesteps Real.sqrt st M).sigmas.head? = some s0
      rw [hsig, List.head?_cons]

theorem set_timesteps_counts_witness :
    (1 ≤ 1 ∧ 1 ≤ (⟨[(1/2 : ℝ)], [], [], none, none, []⟩ : SchedulerState ℝ).betas.length) ∧
    ((setTimesteps Real.sqrt ⟨[(1/2 : ℝ)], [], [], none, none, []⟩ 1).timesteps.length = 1 ∧
      (setTimesteps Real.sqrt ⟨[(1/2 : ℝ)], [], [], none, none, []⟩ 1).sigmas.length = 1 + 1 ∧
      (setTimesteps Real.sqrt ⟨[(1/2 : ℝ)], [], [], none, none, []⟩ 1).sigmas.getLast? = some 0 ∧
      ∃ s0 rest,
        (setTimesteps Real.sqrt ⟨[(1/2 : ℝ)], [], [], none, none, []⟩ 1).sigmas = s0 :: rest ∧
        (setTimesteps Real.sqrt ⟨[(1/2 : ℝ)], [], [], none, none, []⟩ 1).init_noise_sigma
          = some s0) :=
  ⟨⟨by norm_num, by simp⟩,
    set_timesteps_counts ⟨[(1/2 : ℝ)], [], [], none, none, []⟩ 1 (by norm_num) (by simp)⟩

theorem step_derivatives (sqrt : K → K) (st : SchedulerState K) (mo : K) (t : ℚ)
    (i : ℕ) (sample noise : K) :
    (step sqrt st mo t i sample noise).1.derivatives
      = st.derivatives
          ++ [(sample - (sample - st.sigmas.getD i 0 * mo)) / st.sigmas.getD i 0] := rfl

theorem runSteps_derivatives_length (sqrt : K → K)
    (inputs : List (K × ℚ × ℕ × K × K)) (st : SchedulerState K) :
    (runSteps sqrt st inputs).derivatives.length
      = st.derivatives.length + inputs.length := by
  induction inputs generalizing st with
  | nil => simp [runSteps]
  | cons inp rest ih =>
    rw [runSteps, List.foldl_cons]
    have h2 := ih (step sqrt st inp.1 inp.2.1 inp.2.2.1 inp.2.2.2.1 inp.2.2.2.2).1
    rw [runSteps] at h2
    rw [h2, step_derivatives, List.length_append]
    simp
    omega

/-- C9: `set_timesteps` always resets the derivative history to empty,
every `step` call appends exactly one derivative, and therefore after
`set_timesteps` followed by `k` steps the history has length exactly
`k`. -/
theorem derivative_history_invariant :
    (∀ (st : SchedulerState ℝ) (M : ℕ), (setTimesteps Real.sqrt st M).derivatives = []) ∧
    (∀ (st : SchedulerState ℝ) (mo : ℝ) (t : ℚ) (i : ℕ) (sample noise : ℝ),
      ∃ d, (step Real.sqrt st mo t i sample noise).1.derivatives
        = st.derivatives ++ [d]) ∧
    (∀ (st : SchedulerState ℝ) (M : ℕ) (inputs : List (ℝ × ℚ × ℕ × ℝ × ℝ)),
      (runSteps Real.sqrt (setTimesteps Real.sqrt st M) inputs).derivatives.length
        = inputs.length) := by
  refine ⟨fun st M => rfl, fun st mo t i sample noise => ⟨_, step_derivatives _ _ _ _ _ _ _⟩, ?_⟩
  intro st M inputs
  rw [runSteps_derivatives_length]
  have h : (setTimesteps Real.sqrt st M).derivatives = [] := rfl
  rw [h]
  simp

/-- C1: `step` is deterministic given the same model output, timestep,
step index, sample and the same seed (hence the same drawn noise): any two
scheduler states that agree on the noise schedule `sigmas` — whatever
their derivative histories or other fields — produce the identical
`prev_sample` and append the identical derivative, so no state beyond the
explicit inputs and the schedule influences the result. -/
theorem step_deterministic (st1 st2 : SchedulerState ℝ)
    (h : st1.sigmas = st2.sigmas) (mo : ℝ) (t : ℚ) (i : ℕ) (sample noise : ℝ) :
    (step Real.sqrt st1 mo t i sample noise).2
      = (step Real.sqrt st2 mo t i sample noise).2 ∧
    (step Real.sqrt st1 mo t i sample noise).1.derivatives.getLast?
      = (step Real.sqrt st2 mo t i sample noise).1.derivatives.getLast? := by
  constructor
  · simp only [step, sigmaUp, sigmaDown, h]
  · rw [step_derivatives, step_derivatives, List.getLast?_concat, List.getLast?_concat, h]

theorem step_deterministic_witness :
    ((⟨[], [2, 1], [], none, none, [7]⟩ : SchedulerState ℝ).sigmas
        = (⟨[0], [2, 1], [5], some 3, some 5, []⟩ : SchedulerState ℝ).sigmas) ∧
    ((step Real.sqrt (⟨[], [2, 1], [], none, none, [7]⟩ : SchedulerState ℝ) 1 9 0 4 3).2
        = (step Real.sqrt (⟨[0], [2, 1], [5], some 3, some 5, []⟩ : SchedulerState ℝ) 1 9 0 4 3).2 ∧
      (step Real.sqrt (⟨[], [2, 1], [], none, none, [7]⟩ : SchedulerState ℝ) 1 9 0 4 3).1.derivatives.getLast?
        = (step Real.sqrt (⟨[0], [2, 1], [5], some 3, some 5, []⟩ : SchedulerState ℝ) 1 9 0 4 3).1.derivatives.getLast?) :=
  ⟨rfl, step_deterministic ⟨[], [2, 1], [], none, none, [7]⟩
    ⟨[0], [2, 1], [5], some 3, some 5, []⟩ rfl 1 9 0 4 3⟩

/-- C2: at the terminal step (the next sigma is the zero sentinel),
`sigma_up` evaluates to exactly `0` and the returned `prev_sample` is the
deterministic Euler update `sample + derivative * (sigma_down - sigma)`,
with no noise contribution. -/
theorem step_terminal_no_noise (st : SchedulerState ℝ) (i : ℕ)
    (h : st.sigmas.getD (i + 1) 0 = 0) (mo : ℝ) (t : ℚ) (sample noise : ℝ) :
    sigmaUp Real.sqrt st.sigmas i = 0 ∧
    (step Real.sqrt st mo t i sample noise).2
      = sample + (sample - (sample - st.sigmas.getD i 0 * mo)) / st.sigmas.getD i 0
          * (sigmaDown Real.sqrt st.sigmas i - st.sigmas.getD i 0) := by
  have hup : sigmaUp Real.sqrt st.sigmas i = 0 := by
    unfold sigmaUp
    rw [h]
    simp
  refine ⟨hup, ?_⟩
  simp only [step]
  rw [hup, mul_zero, add_zero]

theorem step_terminal_no_noise_witness :
    ((⟨[], [1, 0], [], none, none, []⟩ : SchedulerState ℝ).sigmas.getD (0 + 1) 0 = 0) ∧
    (sigmaUp Real.sqrt (⟨[], [1, 0], [], none, none, []⟩ : SchedulerState ℝ).sigmas 0 = 0 ∧
      (step Real.sqrt (⟨[], [1, 0], [], none, none, []⟩ : SchedulerState ℝ) 2 9 0 3 5).2
        = 3 + (3 - (3 - (⟨[], [1, 0], [], none, none, []⟩ : SchedulerState ℝ).sigmas.getD 0 0 * 2))
              / (⟨[], [1, 0], [], none, none, []⟩ : SchedulerState ℝ).sigmas.getD 0 0
            * (sigmaDown Real.sqrt (⟨[], [1, 0], [], none, none, []⟩ : SchedulerState ℝ).sigmas 0
                - (⟨[], [1, 0], [], none, none, []⟩ : SchedulerState ℝ).sigmas.getD 0 0)) :=
  ⟨rfl, step_terminal_no_noise ⟨[], [1, 0], [], none, none, []⟩ 0 rfl 2 9 3 5⟩

/-- C10: when the current sigma is nonzero, the derivative
`(sample - pred_original_sample) / sigma` with
`pred_original_sample = sample - sigma * model_output` collapses to the
model output exactly, so `prev_sample` is
`sample + model_output * (sigma_down - sigma) + noise * sigma_up`; with a
zero model output the deterministic part leaves the sample unchanged. -/
theorem step_euler_simplified (st : SchedulerState ℝ) (i : ℕ)
    (h : st.sigmas.getD i 0 ≠ 0) (mo : ℝ) (t : ℚ) (sample noise : ℝ) :
    (step Real.sqrt st mo t i sample noise).1.derivatives = st.derivatives ++ [mo] ∧
    (step Real.sqrt st mo t i sample noise).2
      = sample + mo * (sigmaDown Real.sqrt st.sigmas i - st.sigmas.getD i 0)
          + noise * sigmaUp Real.sqrt st.sigmas i ∧
    (step Real.sqrt st 0 t i sample noise).2
      = sample + noise * sigmaUp Real.sqrt st.sigmas i := by
  have hd : ∀ m : ℝ, (sample - (sample - st.sigmas.getD i 0 * m)) / st.sigmas.getD i 0 = m := by
    intro m
    have hm : sample - (sample - st.sigmas.getD i 0 * m) = st.sigmas.getD i 0 * m := by ring
    rw [hm, mul_comm, mul_div_assoc, div_self h, mul_one]
  refine ⟨?_, ?_, ?_⟩
  · rw [step_derivatives, hd]
  · simp only [step]
    rw [hd]
  · simp only [step]
    rw [hd]
    ring

theorem step_euler_simplified_witness :
    ((⟨[], [1, 0], [], none, none, []⟩ : SchedulerState ℝ).sigmas.getD 0 0 ≠ 0) ∧
    ((step Real.sqrt (⟨[], [1, 0], [], none, none, []⟩ : SchedulerState ℝ) 2 9 0 3 5).1.derivatives
        = (⟨[], [1, 0], [], none, none, []⟩ : SchedulerState ℝ).derivatives ++ [2] ∧
      (step Real.sqrt (⟨[], [1, 0], [], none, none, []⟩ : SchedulerState ℝ) 2 9 0 3 5).2
        = 3 + 2 * (sigmaDown Real.sqrt (⟨[], [1, 0], [], none, none, []⟩ : SchedulerState ℝ).sigmas 0
              - (⟨[], [1, 0], [], none, none, []⟩ : SchedulerState ℝ).sigmas.getD 0 0)
            + 5 * sigmaUp Real.sqrt (⟨[], [1, 0], [], none, none, []⟩ : SchedulerState ℝ).sigmas 0 ∧
      (step Real.sqrt (⟨[], [1, 0], [], none, none, []⟩ : SchedulerState ℝ) 0 9 0 3 5).2
        = 3 + 5 * sigmaUp Real.sqrt (⟨[], [1, 0], [], none, none, []⟩ : SchedulerState ℝ).sigmas 0) :=
  ⟨by norm_num, step_euler_simplified ⟨[], [1, 0], [], none, none, []⟩ 0 (by norm_num) 2 9 3 5⟩

theorem pagCombine_elementwise (u text perturb : List ℚ) (g pg : ℚ) :
    pagCombine u text perturb g pg
      = zipWith3 (fun a b c2 => a + g * (b - a) + pg * (b - c2)) u text perturb := by
  induction u generalizing text perturb with
  | nil => cases text <;> cases perturb <;> rfl
  | cons u0 u' ih =>
    cases text with
    | nil => cases perturb <;> rfl
    | cons t0 t' =>
      cases perturb with
      | nil => rfl
      | cons p0 p' => exact congrArg (List.cons _) (ih t' p')

theorem cfgCombine_one_self (u : List ℚ) : cfgCombine u u 1 = u := by
  induction u with
  | nil => rfl
  | cons a l ih =>
    show (a + 1 * (a - a)) :: cfgCombine l l 1 = a :: l
    rw [ih]
    norm_num

theorem cfgCombine_zero (u c : List ℚ) (h : u.length = c.length) :
    cfgCombine u c 0 = u := by
  induction u generalizing c with
  | nil => rfl
  | cons a l ih =>
    cases c with
    | nil => simp at h
    | cons c0 c' =>
      show (a + 0 * (c0 - a)) :: cfgCombine l c' 0 = a :: l
      rw [ih c' (by simpa using h)]
      norm_num

/-- C5: the guidance combiners compute
`uncond + scale * (cond - uncond)` (plus, for the PAG variant, the
auxiliary `pag_scale * (text - perturb)` term) elementwise; consequently
the two-branch combiner with `scale = 1` and identical branches returns
the unconditional branch unchanged, and with `scale = 0` it returns the
unconditional branch for any same-shape conditional branch. -/
theorem guidance_combiner (u c text perturb : List ℚ) (g pg : ℚ) :
    pagCombine u text perturb g pg
      = zipWith3 (fun a b c2 => a + g * (b - a) + pg * (b - c2)) u text perturb ∧
    cfgCombine u u 1 = u ∧
    (u.length = c.length → cfgCombine u c 0 = u) :=
  ⟨pagCombine_elementwise u text perturb g pg, cfgCombine_one_self u,
    fun h => cfgCombine_zero u c h⟩

theorem guidance_combiner_witness :
    (([1, 2] : List ℚ).length = ([3, 4] : List ℚ).length) ∧
    pagCombine [1, 2] [3, 4] [5, 6] (1/2) (1/4)
      = zipWith3 (fun a b c2 => a + (1/2) * (b - a) + (1/4) * (b - c2)) [1, 2] [3, 4] [5, 6] ∧
    cfgCombine [1, 2] [1, 2] 1 = [1, 2] ∧
    cfgCombine [1, 2] [3, 4] 0 = [1, 2] :=
  ⟨rfl, (guidance_combiner [1, 2] [3, 4] [3, 4] [5, 6] (1/2) (1/4)).1,
    (guidance_combiner [1, 2] [3, 4] [3, 4] [5, 6] (1/2) (1/4)).2.1,
    (guidance_combiner [1, 2] [3, 4] [3, 4] [5, 6] (1/2) (1/4)).2.2 rfl⟩

/-- C8 counterexample: the claim implies an explicit timestep list is an
acceptable (exclusive) alternative input mode for `set_timesteps`, but the
method's signature has no such parameter, so supplying only an explicit
timestep list is rejected (as a `TypeError`, not accepted as the
one-of-three mode the claim describes). -/
theorem set_timesteps_call_timesteps_only_rejected :
    setTimestepsCall Real.sqrt (initScheduler Real.sqrt [(1/2 : ℝ)]) none (some [999, 0]) none
      = .error "TypeError: set_timesteps() got an unexpected keyword argument timesteps" := rfl

/-- C8 (amended): `set_timesteps` accepts only an inference step count;
supplying an explicit timestep or sigma list — whether together with a
step count or alone — is rejected before any state change (Python raises
`TypeError` for the unknown keyword), and the step-count-only call
succeeds.  There is no three-way mutual-exclusion configuration check. -/
theorem set_timesteps_call_signature (st : SchedulerState ℝ) (n : Option ℕ)
    (ts : Option (List ℚ)) (sg : Option (List ℝ)) :
    (ts ≠ none ∨ sg ≠ none →
      ∃ e, setTimestepsCall Real.sqrt st n ts sg = .error e) ∧
    (∀ M, setTimestepsCall Real.sqrt st (some M) none none
      = .ok (setTimesteps Real.sqrt st M)) := by
  constructor
  · intro h
    cases ts with
    | some l => exact ⟨_, rfl⟩
    | none =>
      cases sg with
      | some l => exact ⟨_, rfl⟩
      | none => rcases h with h | h <;> exact absurd rfl h
  · intro M
    rfl

theorem set_timesteps_call_signature_witness :
    ((some [(999 : ℚ), 0] ≠ (none : Option (List ℚ))) ∨
      ((none : Option (List ℝ)) ≠ none)) ∧
    (∃ e, setTimestepsCall Real.sqrt (initScheduler Real.sqrt [(1/2 : ℝ)]) (some 5)
        (some [999, 0]) none = .error e) ∧
    setTimestepsCall Real.sqrt (initScheduler Real.sqrt [(1/2 : ℝ)]) (some 5) none none
      = .ok (setTimesteps Real.sqrt (initScheduler Real.sqrt [(1/2 : ℝ)]) 5) :=
  ⟨Or.inl (by simp),
    (set_timesteps_call_signature (initScheduler Real.sqrt [(1/2 : ℝ)]) (some 5)
      (some [999, 0]) none).1 (Or.inl (by simp)),
    (set_timesteps_call_signature (initScheduler Real.sqrt [(1/2 : ℝ)]) (some 5)
      (some [999, 0]) none).2 5⟩

end EulerAncestral
